import Mathlib

/-!
Verification development for the classification-and-materialization engine of
ClipboardToFile (src/ClipboardToFile.cpp).

Embedding conventions:
* `std::wstring` values are modelled as `Wstr := List Char` (all characters the
  program manipulates are in the Basic Multilingual Plane, where UTF-16 code
  units coincide with Unicode scalars).
* The filesystem is modelled as an association list from full path strings to
  entries (directory flag and file content), keyed by exact path equality.
  `GetFileAttributesW` is a lookup; `CreateDirectoryW` / `CreateFileW` with
  CREATE_NEW succeed exactly when the path is absent and the parent directory
  (the part up to the last backslash) exists as a directory in the model.
* `std::wregex` matchers are abstracted as functions
  `Wstr → Option (List Wstr)`: `none` means "no full-line match" (or a regex
  runtime error, which the code treats the same way), `some groups` returns
  the match array, `groups.length` playing the role of `match.size()` and an
  element being the captured text (empty when the group did not participate).
* Operating-system failures of the temp-file write and the final move of the
  atomic-replace helpers are injected through an `IOEnv` record of booleans,
  one per fallible OS call in the source.
-/

abbrev Wstr := List Char

def str (s : String) : Wstr := s.toList

/-- Whitespace as recognised by `operator>>` / `iswspace` in the C locale. -/
def isWS (c : Char) : Bool :=
  c = ' ' ∨ c = '\t' ∨ c = '\n' ∨ c = '\r' ∨ c = '\x0b' ∨ c = '\x0c'

def charAt? (l : Wstr) (i : Nat) : Option Char := (l.drop i).head?

/-- `needle` matches at the start of `hay`. -/
def leadMatch : Wstr → Wstr → Bool
  | [], _ => true
  | _ :: _, [] => false
  | a :: as, b :: bs => a = b && leadMatch as bs

/-- Index of the first occurrence of `needle` in `hay` (`wstring::find`). -/
def findSubIdx (hay needle : Wstr) : Option Nat :=
  if leadMatch needle hay then some 0
  else
    match hay with
    | [] => none
    | _ :: rest => (findSubIdx rest needle).map (· + 1)

/-- `wstring::find(needle) != npos`. -/
def hasSub (hay needle : Wstr) : Bool := (findSubIdx hay needle).isSome

/-- `wstring::find(needle, start)`. -/
def findSubIdxFrom (hay needle : Wstr) (start : Nat) : Option Nat :=
  (findSubIdx (hay.drop start) needle).map (· + start)

def idxOfChar (c : Char) : Wstr → Option Nat
  | [] => none
  | a :: as => if a = c then some 0 else (idxOfChar c as).map (· + 1)

def lastIdxOfPred (p : Char → Bool) : Wstr → Option Nat
  | [] => none
  | a :: as =>
    match lastIdxOfPred p as with
    | some i => some (i + 1)
    | none => if p a then some 0 else none

/-- `erase(0, find_first_not_of(cs))`. -/
def trimLead (cs : List Char) (l : Wstr) : Wstr := l.dropWhile (fun c => cs.contains c)

/-- `erase(find_last_not_of(cs) + 1)`. -/
def trimTrail (cs : List Char) (l : Wstr) : Wstr :=
  (l.reverse.dropWhile (fun c => cs.contains c)).reverse

def trimBoth (cs : List Char) (l : Wstr) : Wstr := trimTrail cs (trimLead cs l)

/-- Split on a delimiter keeping empty pieces (helper for the getline loops). -/
def splitOnChar (c : Char) : Wstr → List Wstr
  | [] => [[]]
  | a :: as =>
    if a = c then [] :: splitOnChar c as
    else
      match splitOnChar c as with
      | h :: t => (a :: h) :: t
      | [] => [[a]]

/-- `while (std::getline(ss, line, c))`: splits on `c`; a trailing delimiter
does not produce a final empty piece, and an empty input yields no lines. -/
def getlineSplitBy (c : Char) (t : Wstr) : List Wstr :=
  if t = [] then []
  else if t.getLast? = some c then (splitOnChar c t).dropLast
  else splitOnChar c t

def tokenizeFuel : Nat → Wstr → List Wstr
  | _, [] => []
  | 0, _ => []
  | fuel + 1, c :: rest =>
    if isWS c then tokenizeFuel fuel rest
    else (c :: rest.takeWhile (fun x => !isWS x)) ::
      tokenizeFuel fuel (rest.dropWhile (fun x => !isWS x))

/-- `operator>>` driven tokenisation of a line; the character count bounds the
loop, each step consuming at least one character. -/
def tokenize (l : Wstr) : List Wstr := tokenizeFuel l.length l

/-- `CountWords` (ClipboardToFile.cpp:669). -/
def CountWords (s : Wstr) : Int := (tokenize s).length

/-- ASCII lowering, the effect of `towlower` in the C locale. -/
def toLowerW (l : Wstr) : Wstr := l.map Char.toLower

/-- ASCII raising, the effect of `towupper` in the C locale. -/
def toUpperW (l : Wstr) : Wstr := l.map Char.toUpper

def natStr (n : Nat) : Wstr := (Nat.repr n).toList

/-- `_wsplitpath_s`: (drive, dir, fname, ext). The drive is a leading
two-character `X:` piece, the dir runs up to and including the last path
separator, and the extension starts at the last dot of the remaining name. -/
def splitDriveW (p : Wstr) : Wstr × Wstr :=
  match p with
  | a :: b :: r => if b = ':' then ([a, b], r) else ([], p)
  | _ => ([], p)

def splitDirW (rest : Wstr) : Wstr × Wstr :=
  match lastIdxOfPred (fun c => c = '/' ∨ c = '\\') rest with
  | some i => (rest.take (i + 1), rest.drop (i + 1))
  | none => ([], rest)

def splitExtW (base : Wstr) : Wstr × Wstr :=
  match lastIdxOfPred (fun c => c = '.') base with
  | some i => (base.take i, base.drop i)
  | none => (base, [])

def splitPath4 (p : Wstr) : Wstr × Wstr × Wstr × Wstr :=
  let dr := splitDriveW p
  let db := splitDirW dr.2
  let fe := splitExtW db.2
  (dr.1, db.1, fe.1, fe.2)

/-- The extension component of `_wsplitpath_s`, as used by the heuristics. -/
def extOf (p : Wstr) : Wstr := (splitPath4 p).2.2.2

/-! ## Path safety and filename validation -/

/-- Embeds `IsPathSafe` (ClipboardToFile.cpp:1761-1775). -/
def IsPathSafe (path : Wstr) : Bool :=
  if hasSub path (str "..\\") ∨ hasSub path (str "../") then false
  else if 2 ≤ path.length ∧ charAt? path 1 = some ':' then false
  else if path.head? = some '\\' ∨ path.head? = some '/' then false
  else if 2 ≤ path.length ∧ path.head? = some '\\' ∧ charAt? path 1 = some '\\' then false
  else true

def invalidCharsW : List Char := ['\\', '/', ':', '*', '?', '"', '<', '>', '|']

/-- Upper-cased name with the extension (from the last dot) removed, the base
used for the reserved-device-name check (ClipboardToFile.cpp:1832-1840). -/
def baseNameOf (filename : Wstr) : Wstr :=
  let u := toUpperW filename
  match lastIdxOfPred (fun c => c = '.') u with
  | some i => u.take i
  | none => u

/-- Reserved-device-name test on the extension-stripped upper-cased base
(ClipboardToFile.cpp:1842-1867). -/
def reservedBaseW (base : Wstr) : Bool :=
  base = str "CON" ∨ base = str "PRN" ∨ base = str "AUX" ∨ base = str "NUL" ∨
  (4 ≤ base.length ∧ base.take 3 = str "COM" ∧ (base.drop 3).all Char.isDigit) ∨
  (4 ≤ base.length ∧ base.take 3 = str "LPT" ∧ (base.drop 3).all Char.isDigit)

/-- Embeds `IsValidFilename` (ClipboardToFile.cpp:1793-1888); the source is a
chain of early `return false` checks ending in `return true`. -/
def IsValidFilename (filename : Wstr) : Bool :=
  if filename = [] then false
  else if 255 < filename.length then false
  else if hasSub filename (str "../") ∨ hasSub filename (str "..\\") then false
  else if 2 ≤ filename.length ∧ charAt? filename 1 = some ':' then false
  else if filename.head? = some '\\' ∨ filename.head? = some '/' then false
  else if filename.any (fun c => invalidCharsW.contains c) then false
  else if filename.any (fun c => c.toNat ≤ 0x1F) then false
  else if reservedBaseW (baseNameOf filename) then false
  else if filename.getLast? = some '.' then false
  else if filename.all (fun c => c = '.') then false
  else true

/-- Reserved-name condition as the specification words it: the base matches
`CON/PRN/AUX/NUL`, or `COM`/`LPT` followed by one or more digits. -/
def specReservedName (filename : Wstr) : Bool :=
  let base := baseNameOf filename
  base = str "CON" ∨ base = str "PRN" ∨ base = str "AUX" ∨ base = str "NUL" ∨
  (base.take 3 = str "COM" ∧ base.drop 3 ≠ [] ∧ (base.drop 3).all Char.isDigit) ∨
  (base.take 3 = str "LPT" ∧ base.drop 3 ≠ [] ∧ (base.drop 3).all Char.isDigit)

/-- The rejection condition of the filename validator as the specification
states it, one disjunct per listed reason. -/
def specInvalidFilename (filename : Wstr) : Bool :=
  filename = [] ∨
  255 < filename.length ∨
  filename.any (fun c => invalidCharsW.contains c) ∨
  filename.any (fun c => c.toNat ≤ 0x1F) ∨
  specReservedName filename ∨
  filename.all (fun c => c = '.') ∨
  filename.getLast? = some '.' ∨
  hasSub filename (str "../") ∨ hasSub filename (str "..\\") ∨
  (2 ≤ filename.length ∧ charAt? filename 1 = some ':') ∨
  filename.head? = some '\\' ∨ filename.head? = some '/'

/-! ## Format detection -/

inductive TreeFormat where
  | Unknown
  | TreeCommand
  | Indentation
  | PathList
  | Enhanced
deriving DecidableEq

/-- Embeds `DetectTreeFormat` (ClipboardToFile.cpp:731-776). -/
def DetectTreeFormat (text : Wstr) : TreeFormat :=
  if text.contains '├' ∨ text.contains '└' ∨ text.contains '│' then .TreeCommand
  else if hasSub text (str "---START:") ∨ hasSub text (str "---END:") then .Enhanced
  else
    let lines := (getlineSplitBy '\n' text).filter (fun l => l ≠ [])
    if lines = [] then .Unknown
    else
      let hasSlashes := lines.any (fun l => l.contains '/' ∨ l.contains '\\')
      let hasIndentation := lines.any (fun l => l.head? = some ' ' ∨ l.head? = some '\t')
      if hasSlashes ∧ ¬hasIndentation then .PathList
      else if hasIndentation then .Indentation
      else .Unknown

/-! ## Tree data model and parsers -/

inductive TreeNode where
  | mk (name : Wstr) (isDirectory : Bool) (content : Wstr) (children : List TreeNode)

def TreeNode.name : TreeNode → Wstr
  | .mk n _ _ _ => n

def TreeNode.isDirectory : TreeNode → Bool
  | .mk _ d _ _ => d

def TreeNode.content : TreeNode → Wstr
  | .mk _ _ c _ => c

def TreeNode.children : TreeNode → List TreeNode
  | .mk _ _ _ ch => ch

mutual
/-- Every node with a non-empty child list is a directory, recursively (the
data-model invariant the claims are about). -/
def treeOk : TreeNode → Bool
  | .mk _ d _ ch => (ch.isEmpty || d) && treeOkList ch
def treeOkList : List TreeNode → Bool
  | [] => true
  | t :: ts => treeOk t && treeOkList ts
end

/-- Depth loop of the tree-glyph parser (ClipboardToFile.cpp:810-820): each
leading `│` or space advances the position by 4 and counts one depth level;
returns the depth and the rest of the line from the final position. -/
def treeDepthRemFuel : Nat → Wstr → Nat × Wstr
  | _, [] => (0, [])
  | 0, l => (0, l)
  | fuel + 1, c :: rest =>
    if c = '│' ∨ c = ' ' then
      let r := treeDepthRemFuel fuel (rest.drop 3)
      (r.1 + 1, r.2)
    else (0, c :: rest)

def treeDepthRem (l : Wstr) : Nat × Wstr := treeDepthRemFuel l.length l

def treeGlyphChars : List Char := [' ', '\t', '│', '├', '└', '─']

/-- Stack of open directories (innermost first, each with its accumulated
children) plus the accumulated children of the synthetic root. The C++ code
mutates nodes through stack pointers; here a popped open directory is
completed into a `TreeNode` and attached to the next entry. -/
abbrev TStack := List (Wstr × List TreeNode) × List TreeNode

def tAttach (st : TStack) (n : TreeNode) : TStack :=
  match st with
  | ([], acc) => ([], acc ++ [n])
  | ((nm, cs) :: rest, acc) => ((nm, cs ++ [n]) :: rest, acc)

def tPop (st : TStack) : TStack :=
  match st with
  | ([], acc) => ([], acc)
  | ((nm, cs) :: rest, acc) => tAttach (rest, acc) (.mk nm true [] cs)

/-- `stack.size()` counting the root entry. -/
def tSize (st : TStack) : Nat := st.1.length + 1

def tUnwindAux : Nat → TStack → Nat → TStack
  | 0, st, _ => st
  | fuel + 1, st, k => if k < tSize st then tUnwindAux fuel (tPop st) k else st

/-- `while (stack.size() > k) stack.pop_back()`; `k ≥ 1` at every call site,
so the fuel (one unit per open directory) always suffices. -/
def tUnwind (st : TStack) (k : Nat) : TStack := tUnwindAux st.1.length st k

/-- One line of `ParseTreeCommandFormat` (ClipboardToFile.cpp:806-851). -/
def parseTCLine (st : TStack) (line : Wstr) : TStack :=
  if line = [] then st
  else
    let dr := treeDepthRem line
    let name0 := dr.2.dropWhile (fun c => treeGlyphChars.contains c)
    if name0 = [] then st
    else
      let name1 := trimTrail [' ', '\t', '\r'] (trimLead [' ', '\t'] name0)
      if name1 = [] then st
      else
        let isDir := name1.getLast? = some '/'
        let name := if isDir then name1.dropLast else name1
        let st' := tUnwind st (dr.1 + 1)
        if isDir then ((name, []) :: st'.1, st'.2)
        else tAttach st' (.mk name false [] [])

/-- Embeds `ParseTreeCommandFormat` (ClipboardToFile.cpp:801-854). -/
def ParseTreeCommandFormat (lines : List Wstr) : TreeNode :=
  let st := lines.foldl parseTCLine ([], [])
  .mk (str "root") true [] (tUnwind st 1).2

/-- Indentation-parser stack: open directories carry their indent level; the
root (sentinel indent −1 in the source) is the structural bottom and is never
popped, since the unwind condition `top.indent ≥ indent` is false for it. -/
abbrev IStack := List (Wstr × Nat × List TreeNode) × List TreeNode

def iAttach (st : IStack) (n : TreeNode) : IStack :=
  match st with
  | ([], acc) => ([], acc ++ [n])
  | ((nm, d, cs) :: rest, acc) => ((nm, d, cs ++ [n]) :: rest, acc)

def iUnwindFuel : Nat → IStack → Nat → IStack
  | 0, st, _ => st
  | fuel + 1, st, ind =>
    match st with
    | ([], acc) => ([], acc)
    | ((nm, d, cs) :: rest, acc) =>
      if ind ≤ d then iUnwindFuel fuel (iAttach (rest, acc) (.mk nm true [] cs)) ind
      else ((nm, d, cs) :: rest, acc)

/-- `while (!stack.empty() && stack.back().second >= indent) stack.pop_back()`;
one unit of fuel per open directory always suffices, each pop removing one. -/
def iUnwind (st : IStack) (ind : Nat) : IStack := iUnwindFuel st.1.length st ind

/-- Leading-whitespace count, a tab weighing 4 (ClipboardToFile.cpp:864-869). -/
def countIndent : Wstr → Nat
  | [] => 0
  | c :: rest =>
    if c = ' ' then countIndent rest + 1
    else if c = '\t' then countIndent rest + 4
    else 0

/-- One line of `ParseIndentationFormat` (ClipboardToFile.cpp:861-894).
`line.substr(indent)` throws `std::out_of_range` when the tab-weighted indent
exceeds the character length, which the surrounding code does not catch; that
outcome is modelled as `none`. -/
def parseIndentLine (st : IStack) (line : Wstr) : Option IStack :=
  if line = [] then some st
  else
    let indent := countIndent line
    if line.length < indent then none
    else
      let name1 := trimTrail [' ', '\t', '\r'] (trimLead [' ', '\t'] (line.drop indent))
      if name1 = [] then some st
      else
        let isDir := name1.getLast? = some '/'
        let name := if isDir then name1.dropLast else name1
        let st' := iUnwind st indent
        some (if isDir then ((name, indent, []) :: st'.1, st'.2)
              else iAttach st' (.mk name false [] []))

def parseIndentLines : List Wstr → IStack → Option IStack
  | [], st => some st
  | l :: ls, st =>
    match parseIndentLine st l with
    | none => none
    | some st' => parseIndentLines ls st'

/-- Embeds `ParseIndentationFormat` (ClipboardToFile.cpp:856-897). -/
def ParseIndentationFormat (lines : List Wstr) : Option TreeNode :=
  match parseIndentLines lines ([], []) with
  | none => none
  | some st => some (.mk (str "root") true [] (iUnwind st 0).2)

/-- The last path component is a file exactly when it has a dot at an index
greater than zero (ClipboardToFile.cpp:929-938). -/
def hasDotAfterFirst (comp : Wstr) : Bool :=
  match lastIdxOfPred (fun c => c = '.') comp with
  | some i => 0 < i
  | none => false

def findChildIdx (ch : List TreeNode) (nm : Wstr) : Option Nat :=
  ch.findIdx? (fun c => c.name = nm)

/-- Walk/create one path's components into the tree
(ClipboardToFile.cpp:922-956). For an intermediate component the computed
directory flag is `true`, and the walker descends into whichever child carries
that name — even a child previously created as a file. -/
def plInsert : TreeNode → List Wstr → Bool → TreeNode
  | t, [], _ => t
  | .mk nm d c ch, comp :: rest, endSlash =>
    let isLast := rest = []
    let isDirC := if isLast then (endSlash ∨ hasDotAfterFirst comp = false) else true
    match findChildIdx ch comp with
    | some i =>
      if isDirC then
        .mk nm d c (ch.set i (plInsert (ch.getD i (.mk [] false [] [])) rest endSlash))
      else .mk nm d c ch
    | none =>
      if isDirC then .mk nm d c (ch ++ [plInsert (.mk comp true [] []) rest endSlash])
      else .mk nm d c (ch ++ [.mk comp false [] []])

/-- One line of `ParsePathListFormat` (ClipboardToFile.cpp:902-956): trim,
normalise separators, split into non-empty components, insert. -/
def plLine (t : TreeNode) (line : Wstr) : TreeNode :=
  let path := trimTrail [' ', '\t', '\r'] (trimLead [' ', '\t'] line)
  if path = [] then t
  else
    let norm := path.map (fun c => if c = '\\' then '/' else c)
    let comps := (splitOnChar '/' norm).filter (fun c => c ≠ [])
    if comps = [] then t
    else plInsert t comps (norm.getLast? = some '/')

/-- Embeds `ParsePathListFormat` (ClipboardToFile.cpp:899-960). -/
def ParsePathListFormat (lines : List Wstr) : TreeNode :=
  lines.foldl plLine (.mk (str "root") true [] [])

mutual
/-- `setContent` lambda of `ParseEnhancedFormat` (ClipboardToFile.cpp:989-998):
every file node with the matching name receives the content; a matched node's
children are not visited. -/
def setContentIn (target cc : Wstr) : TreeNode → TreeNode
  | .mk nm d c ch =>
    if d = false ∧ nm = target then .mk nm d cc ch
    else .mk nm d c (setContentList target cc ch)
def setContentList (target cc : Wstr) : List TreeNode → List TreeNode
  | [] => []
  | t :: ts => setContentIn target cc t :: setContentList target cc ts
end

/-- Marker scan of `ParseEnhancedFormat` (ClipboardToFile.cpp:966-1005),
carrying (current file, accumulated content, in-content flag). -/
def enhGo : List Wstr → TreeNode → Wstr → Wstr → Bool → TreeNode
  | [], t, _, _, _ => t
  | line :: ls, t, curFile, curContent, inC =>
    match findSubIdx line (str "---START:") with
    | some idx =>
      match findSubIdxFrom line (str "---") (idx + 9) with
      | some e =>
        enhGo ls t (trimBoth [' ', '\t'] ((line.drop (idx + 9)).take (e - (idx + 9)))) [] true
      | none => enhGo ls t curFile curContent inC
    | none =>
      if (findSubIdx line (str "---END:")).isSome ∧ inC then
        enhGo ls (setContentIn curFile curContent t) curFile curContent false
      else if inC then
        enhGo ls t curFile (if curContent = [] then line else curContent ++ '\n' :: line) true
      else enhGo ls t curFile curContent inC

/-- Embeds `ParseEnhancedFormat` (ClipboardToFile.cpp:962-1008). -/
def ParseEnhancedFormat (lines : List Wstr) : Option TreeNode :=
  match ParseIndentationFormat lines with
  | none => none
  | some root => some (enhGo lines root [] [] false)

/-- Embeds `ParseTreeStructure` (ClipboardToFile.cpp:778-799): split the text
into lines (empties kept) and dispatch on the detected format. -/
def ParseTreeStructure (text : Wstr) (format : TreeFormat) : Option TreeNode :=
  let lines := getlineSplitBy '\n' text
  match format with
  | .TreeCommand => some (ParseTreeCommandFormat lines)
  | .Indentation => ParseIndentationFormat lines
  | .PathList => some (ParsePathListFormat lines)
  | .Enhanced => ParseEnhancedFormat lines
  | .Unknown => none

/-! ## Filesystem model and materializer -/

/-- Filesystem: entries of (full path, is-directory, content), keyed by exact
path; `lookupFS` plays `GetFileAttributesW` (`none` = INVALID_FILE_ATTRIBUTES). -/
abbrev FS := List (Wstr × Bool × Wstr)

def lookupFS : FS → Wstr → Option (Bool × Wstr)
  | [], _ => none
  | (q, d, c) :: rest, p => if q = p then some (d, c) else lookupFS rest p

def existsPath (fs : FS) (p : Wstr) : Bool := (lookupFS fs p).isSome

def removePath : FS → Wstr → FS
  | [], _ => []
  | (q, d, c) :: rest, p =>
    if q = p then removePath rest p else (q, d, c) :: removePath rest p

/-- `fullPath.substr(0, fullPath.find_last_of(L"\\"))` — everything up to the
last backslash (the whole string when there is none, as `substr(0, npos)`). -/
def parentOf (p : Wstr) : Wstr :=
  match lastIdxOfPred (fun c => c = '\\') p with
  | some i => p.take i
  | none => p

/-- The parent directory exists as a directory; a path with no separator lives
directly in the destination drive/working directory and is always creatable. -/
def parentDirOk (fs : FS) (p : Wstr) : Bool :=
  match lastIdxOfPred (fun c => c = '\\') p with
  | none => true
  | some i =>
    match lookupFS fs (p.take i) with
    | some (true, _) => true
    | _ => false

/-- `CreateDirectoryW`; under the sequential model a failure at a
known-absent path can only be "parent missing", never ERROR_ALREADY_EXISTS. -/
def mkdirW (fs : FS) (p : Wstr) : FS × Bool :=
  if existsPath fs p then (fs, false)
  else if parentDirOk fs p then (fs ++ [(p, true, [])], true)
  else (fs, false)

/-- `CreateFileW(..., CREATE_NEW, ...)`. -/
def createNewFile (fs : FS) (p : Wstr) : FS × Bool :=
  if existsPath fs p then (fs, false)
  else if parentDirOk fs p then (fs ++ [(p, false, [])], true)
  else (fs, false)

def replaceContent : FS → Wstr → Wstr → FS
  | [], _, _ => []
  | (q, d, c) :: rest, p, content =>
    if q = p then (q, d, content) :: rest else (q, d, c) :: replaceContent rest p content

/-- `std::wofstream` open-and-write: fails on a directory or a missing parent,
truncates an existing file, creates a missing one. -/
def openWriteFile (fs : FS) (p content : Wstr) : FS × Bool :=
  match lookupFS fs p with
  | some (true, _) => (fs, false)
  | some (false, _) => (replaceContent fs p content, true)
  | none => if parentDirOk fs p then (fs ++ [(p, false, content)], true) else (fs, false)

/-- `MoveFileExW(src, dst, MOVEFILE_REPLACE_EXISTING)` on success. -/
def moveReplace (fs : FS) (src dst : Wstr) : FS :=
  match lookupFS fs src with
  | some (d, c) => removePath (removePath fs src) dst ++ [(dst, d, c)]
  | none => fs

/-- Settings snapshot (struct `AppSettings`, ClipboardToFile.cpp:88-97). -/
structure Settings where
  isCreateEmptyFileEnabled : Bool
  isCreateWithContentEnabled : Bool
  isCreateDirectoryStructureEnabled : Bool
  allowedExtensions : List Wstr
  heuristicWordCountLimit : Int
  createEmptyDirectories : Bool
  skipExistingDirectories : Bool

/-- Segment-by-segment parent creation (ClipboardToFile.cpp:1069-1078):
split on backslashes, rebuild the accumulated path, and issue a
`CreateDirectoryW` per step ignoring failures. -/
def autoCreateParents (fs : FS) (parentDir : Wstr) : FS :=
  ((getlineSplitBy '\\' parentDir).foldl
    (fun (st : FS × Wstr) seg =>
      let cur := if st.2 = [] then st.2 ++ seg else st.2 ++ '\\' :: seg
      ((mkdirW st.1 cur).1, cur))
    (fs, [])).1

mutual
/-- The `createNode` recursive lambda of `CreateDirectoryStructure`
(ClipboardToFile.cpp:1019-1109). -/
def createNode (s : Settings) (node : TreeNode) (parentPath : Wstr) (fs : FS) : FS × Bool :=
  match node with
  | .mk nm isDir content ch =>
    let fullPath := parentPath ++ '\\' :: nm
    if IsPathSafe fullPath = false then (fs, false)
    else if isDir then
      match lookupFS fs fullPath with
      | none =>
        let r := mkdirW fs fullPath
        if r.2 then createChildren s ch fullPath r.1 else (r.1, false)
      | some (true, _) => createChildren s ch fullPath fs
      | some (false, _) =>
        if s.skipExistingDirectories then createChildren s ch fullPath fs else (fs, false)
    else
      let parentDir := parentOf fullPath
      let fs1 :=
        if lookupFS fs parentDir = none ∧ s.createEmptyDirectories then
          autoCreateParents fs parentDir
        else fs
      match lookupFS fs1 fullPath with
      | some _ => (fs1, true)
      | none =>
        if content ≠ [] then openWriteFile fs1 fullPath content
        else createNewFile fs1 fullPath
def createChildren (s : Settings) (nodes : List TreeNode) (parentPath : Wstr) (fs : FS) :
    FS × Bool :=
  match nodes with
  | [] => (fs, true)
  | n :: ns =>
    let r := createNode s n parentPath fs
    if r.2 then createChildren s ns parentPath r.1 else (r.1, false)
end

/-- Embeds `CreateDirectoryStructure` (ClipboardToFile.cpp:1010-1119). -/
def CreateDirectoryStructure (s : Settings) (root : TreeNode) (basePath : Wstr) (fs : FS) :
    FS × Bool :=
  match root with
  | .mk _ _ _ ch => if ch.isEmpty then (fs, false) else createChildren s ch basePath fs

/-! ## Atomic replace helpers, unique names, destination resolution -/

/-- Injected OS-failure switches for the fallible calls of the atomic-replace
helpers: `wofstream` open, the post-close `fail()` flag, and `MoveFileExW`. -/
structure IOEnv where
  openFails : Bool
  writeFails : Bool
  moveFails : Bool

/-- Temp-file name: `_tmp_<counter>` inserted before the extension in the same
directory (ClipboardToFile.cpp:1491-1499). -/
def tempPathOf (target : Wstr) (k : Nat) : Wstr :=
  let q := splitPath4 target
  q.1 ++ q.2.1 ++ q.2.2.1 ++ str "_tmp_" ++ natStr k ++ q.2.2.2

/-- The do-while search of the temp-name loops: counters 0, 1, … are tried in
order; the loop's `counter < 1000` bound means a name found at counter 999
still falls into the `counter >= 1000` failure check, so only 999 candidates
are usable. -/
def findFreeCounter (fs : FS) (target : Wstr) : Nat → Nat → Option Nat
  | _, 0 => none
  | k, fuel + 1 =>
    if existsPath fs (tempPathOf target k) then findFreeCounter fs target (k + 1) fuel
    else some k

def findTempName (fs : FS) (target : Wstr) : Option Nat := findFreeCounter fs target 0 999

/-- A write can be opened at `p`: the path is not an existing directory and
its parent directory exists. -/
def canOpenWrite (fs : FS) (p : Wstr) : Bool :=
  match lookupFS fs p with
  | some (true, _) => false
  | some (false, _) => true
  | none => parentDirOk fs p

/-- Embeds `CreateFileWithContentAtomic` (ClipboardToFile.cpp:1482-1529). -/
def CreateFileWithContentAtomic (env : IOEnv) (fs : FS) (target content : Wstr) : FS × Bool :=
  match findTempName fs target with
  | none => (fs, false)
  | some k =>
    let temp := tempPathOf target k
    if env.openFails ∨ canOpenWrite fs temp = false then (fs, false)
    else
      let fs1 := (openWriteFile fs temp content).1
      if env.writeFails then (removePath fs1 temp, false)
      else if env.moveFails then (removePath fs1 temp, false)
      else (moveReplace fs1 temp target, true)

/-- Embeds `CreateEmptyFileAtomic` (ClipboardToFile.cpp:1532-1571). -/
def CreateEmptyFileAtomic (env : IOEnv) (fs : FS) (target : Wstr) : FS × Bool :=
  match findTempName fs target with
  | none => (fs, false)
  | some k =>
    let temp := tempPathOf target k
    if env.openFails ∨ canOpenWrite fs temp = false then (fs, false)
    else
      let fs1 := fs ++ [(temp, false, [])]
      if env.moveFails then (removePath fs1 temp, false)
      else (moveReplace fs1 temp target, true)

/-- ` (<counter>)` inserted before the extension (ClipboardToFile.cpp:651-658). -/
def numberedPathOf (orig : Wstr) (k : Nat) : Wstr :=
  let q := splitPath4 orig
  q.1 ++ q.2.1 ++ q.2.2.1 ++ str " (" ++ natStr k ++ str ")" ++ q.2.2.2

/-- The rename do-while loop tries counters 1, 2, …; when the `counter < 1000`
bound trips, the candidate built for counter 999 is returned even if a file of
that name exists (ClipboardToFile.cpp:654-660). -/
def genUniqueLoop (fs : FS) (orig : Wstr) : Nat → Nat → Wstr
  | k, 0 => numberedPathOf orig k
  | k, fuel + 1 =>
    if existsPath fs (numberedPathOf orig k) then genUniqueLoop fs orig (k + 1) fuel
    else numberedPathOf orig k

/-- Embeds `GenerateUniqueFilename` (ClipboardToFile.cpp:638-663). -/
def GenerateUniqueFilename (fs : FS) (orig : Wstr) : Wstr :=
  if existsPath fs orig = false then orig
  else genUniqueLoop fs orig 1 998

/-- Embeds the candidate selection of `GetSingleExplorerPath`
(ClipboardToFile.cpp:1645-1646): given the candidate paths the COM
enumeration produced, the FIRST one is returned whenever at least one exists;
only an empty candidate list yields the empty "no destination" result. -/
def GetSingleExplorerPath (paths : List Wstr) : Wstr :=
  match paths with
  | [] => []
  | p :: _ => p

/-! ## Heuristic classifier, batch expander, file-generation flow -/

/-- Abstracted compiled regex: full-line match returning the match array
(`match[0]` the whole line, `match[i]` the i-th capture, possibly empty). -/
def Matcher := Wstr → Option (List Wstr)

/-- The Priority-1 loop (ClipboardToFile.cpp:1163-1176): first pattern that
matches the first line with `match.size() > 1` wins; a match whose result
carries no capture entry is skipped, as is a non-matching or throwing one. -/
def firstMatchP1 : List Matcher → Wstr → Option (List Wstr)
  | [], _ => none
  | m :: rest, l =>
    match m l with
    | some g => if 1 < g.length then some g else firstMatchP1 rest l
    | none => firstMatchP1 rest l

/-- Result of the classification part of `TryFileGeneration`
(ClipboardToFile.cpp:1122-1264): `abort` is an early `return false`,
`noMatch` means no tier fired, `found` carries the detected filename, the
content so far, and `filename_end_pos`. -/
inductive HeurResult where
  | abort
  | noMatch
  | found (filename content : Wstr) (endPos : Nat)
deriving DecidableEq

def extAllowed (s : Settings) (w : Wstr) : Bool :=
  s.allowedExtensions.contains (toLowerW (extOf w))

/-- Priority 3 (ClipboardToFile.cpp:1233-1264): whole first line as filename
when its extension is allowed and the word count fits; requires the empty-file
feature, and leaves the previously computed content untouched. -/
def classifyP3 (s : Settings) (firstLine content : Wstr) (flEndPos : Nat) : HeurResult :=
  if extAllowed s firstLine ∧ CountWords firstLine ≤ s.heuristicWordCountLimit then
    if s.isCreateEmptyFileEnabled = false then .abort
    else .found firstLine content flEndPos
  else .noMatch

/-- Priority 2, single-line clipboards only (ClipboardToFile.cpp:1179-1231);
`none` means the tier did not fire and Priority 3 is consulted. -/
def classifyP2 (s : Settings) (firstLine : Wstr) : Option HeurResult :=
  match (tokenize firstLine).head? with
  | none => none
  | some w =>
    if extAllowed s w then
      let wEnd := (findSubIdx firstLine w).getD 0 + w.length
      if wEnd < firstLine.length then
        some (if s.isCreateWithContentEnabled = false then .abort
              else .found w (trimLead [' ', '\t'] (firstLine.drop wEnd)) wEnd)
      else
        some (if s.isCreateEmptyFileEnabled = false then .abort
              else .found w [] wEnd)
    else none

/-- Classification stage of `TryFileGeneration` (ClipboardToFile.cpp:1122-1264):
feature gate, first-line split and trim, then priorities 1, 2, 3 in order. -/
def classifyHeuristic (s : Settings) (ms : List Matcher) (text : Wstr) : HeurResult :=
  if s.isCreateEmptyFileEnabled = false ∧ s.isCreateWithContentEnabled = false then .abort
  else
    match idxOfChar '\n' text with
    | some i =>
      if s.isCreateWithContentEnabled = false then .abort
      else
        let firstLine := trimBoth [' ', '\t', '\r', '\n'] (text.take i)
        match firstMatchP1 ms firstLine with
        | some g => .found (g.getD 1 []) (text.drop (i + 1)) (i + 1)
        | none => classifyP3 s firstLine (text.drop (i + 1)) (i + 1)
    | none =>
      let firstLine := trimBoth [' ', '\t', '\r', '\n'] text
      match (if s.isCreateWithContentEnabled then firstMatchP1 ms firstLine else none) with
      | some g => .found (g.getD 1 []) [] text.length
      | none =>
        match classifyP2 s firstLine with
        | some r => r
        | none => classifyP3 s firstLine [] text.length

/-- A line/token counts as an additional filename: valid, allowed extension,
within the word-count limit (ClipboardToFile.cpp:1916-1938). -/
def lineIsFilename (s : Settings) (l : Wstr) : Bool :=
  IsValidFilename l && extAllowed s l && decide (CountWords l ≤ s.heuristicWordCountLimit)

/-- Scan of the lines after the first (ClipboardToFile.cpp:1953-1994): blank
lines are skipped, the scan stops at the first non-blank non-filename line. -/
def scanLines (s : Settings) : List Wstr → List Wstr
  | [] => []
  | l :: ls =>
    if l = [] then scanLines s ls
    else if lineIsFilename s l then l :: scanLines s ls
    else []

/-- Embeds `FindAdditionalFilenames` (ClipboardToFile.cpp:1891-1996). -/
def FindAdditionalFilenames (s : Settings) (text : Wstr) (startPos : Nat) : List Wstr :=
  let lines := (getlineSplitBy '\n' (text.drop startPos)).map (trimBoth [' ', '\t', '\r'])
  match lines with
  | [] => []
  | l0 :: rest =>
    let firstLineFilenames := (tokenize l0).filter (lineIsFilename s)
    if 1 < firstLineFilenames.length then firstLineFilenames
    else firstLineFilenames ++ scanLines s rest

inductive FileConflictAction where
  | Replace
  | Skip
  | Rename
deriving DecidableEq

/-- Observable classification outcome of `TryFileGeneration`: nothing handled,
a detected-but-invalid name (handled, nothing created), a batch of names to
create empty, or a single (filename, content) pair. -/
inductive GenOutcome where
  | notHandled
  | handledInvalid
  | batch (names : List Wstr)
  | single (filename content : Wstr)
deriving DecidableEq

/-- Classification plus batch expansion of `TryFileGeneration`
(ClipboardToFile.cpp:1122-1276 and 1402-1407): the batch, built only when the
empty-file feature is on, is the detected filename followed by
`FindAdditionalFilenames`, and a batch needs at least two names. -/
def TryFileGenerationOutcome (s : Settings) (ms : List Matcher) (text : Wstr) : GenOutcome :=
  match classifyHeuristic s ms text with
  | .abort => .notHandled
  | .noMatch => .notHandled
  | .found fn content ep =>
    let all := if s.isCreateEmptyFileEnabled then fn :: FindAdditionalFilenames s text ep
               else [fn]
    if s.isCreateEmptyFileEnabled ∧ 2 ≤ all.length then .batch all
    else
      let fn2 := trimBoth [' ', '\t', '\n', '\r'] fn
      if IsValidFilename fn2 then .single fn2 content else .handledInvalid

/-- Creation step of the single-file path (ClipboardToFile.cpp:1435-1473):
atomic replace when the final path already exists, plain creation otherwise. -/
def singleCreate (env : IOEnv) (fs : FS) (finalPath content : Wstr) : FS × Bool :=
  if content = [] then
    if existsPath fs finalPath then CreateEmptyFileAtomic env fs finalPath
    else createNewFile fs finalPath
  else
    if existsPath fs finalPath then CreateFileWithContentAtomic env fs finalPath content
    else openWriteFile fs finalPath content

/-- Single-file branch of `TryFileGeneration` (ClipboardToFile.cpp:1402-1477);
`choice` is the answer of the external conflict dialog. -/
def singlePart (env : IOEnv) (paths : List Wstr) (fs : FS)
    (filename content : Wstr) (choice : FileConflictAction) : FS × Bool :=
  let fn := trimBoth [' ', '\t', '\n', '\r'] filename
  if IsValidFilename fn = false then (fs, true)
  else
    let ep := GetSingleExplorerPath paths
    if ep = [] then (fs, false)
    else
      let fullPath := ep ++ '\\' :: fn
      if existsPath fs fullPath then
        match choice with
        | .Skip => (fs, true)
        | .Rename => singleCreate env fs (GenerateUniqueFilename fs fullPath) content
        | .Replace => singleCreate env fs fullPath content
      else singleCreate env fs fullPath content

/-- Batch branch of `TryFileGeneration` (ClipboardToFile.cpp:1277-1397):
partition into new and pre-existing targets against the starting filesystem,
create the new ones, then apply the one conflict decision to every existing
one; the call reports success iff at least one file was created. -/
def batchPart (env : IOEnv) (paths : List Wstr) (fs : FS) (names : List Wstr)
    (choice : FileConflictAction) : FS × Bool :=
  let ep := GetSingleExplorerPath paths
  if ep = [] then (fs, false)
  else
    let existing := names.filter (fun n => existsPath fs (ep ++ '\\' :: n))
    let newF := names.filter (fun n => existsPath fs (ep ++ '\\' :: n) = false)
    let action := if existing.isEmpty then FileConflictAction.Skip else choice
    let r1 := newF.foldl
      (fun (st : FS × Nat) n =>
        let c := createNewFile st.1 (ep ++ '\\' :: n)
        (c.1, if c.2 then st.2 + 1 else st.2))
      (fs, 0)
    let r2 := existing.foldl
      (fun (st : FS × Nat) n =>
        match action with
        | .Skip => st
        | .Rename =>
          let c := createNewFile st.1 (GenerateUniqueFilename st.1 (ep ++ '\\' :: n))
          (c.1, if c.2 then st.2 + 1 else st.2)
        | .Replace =>
          let c := CreateEmptyFileAtomic env st.1 (ep ++ '\\' :: n)
          (c.1, if c.2 then st.2 + 1 else st.2))
      r1
    (r2.1, 0 < r2.2)

/-- Embeds `TryFileGeneration` end to end over the filesystem model:
classification, batch expansion, then the batch or single-file branch. -/
def TryFileGenerationRun (s : Settings) (ms : List Matcher) (env : IOEnv) (paths : List Wstr)
    (text : Wstr) (fs : FS) (choice : FileConflictAction) : FS × Bool :=
  match classifyHeuristic s ms text with
  | .abort => (fs, false)
  | .noMatch => (fs, false)
  | .found fn content ep =>
    if s.isCreateEmptyFileEnabled then
      let all := fn :: FindAdditionalFilenames s text ep
      if 2 ≤ all.length then batchPart env paths fs all choice
      else singlePart env paths fs fn content choice
    else singlePart env paths fs fn content choice

/-- The built-in default configuration (`AppSettings` member initialisers plus
the `LoadSettings` defaults, ClipboardToFile.cpp:88-97 and 383-395), with the
extension list shortened to the part the concrete test inputs exercise. -/
def testSettings : Settings :=
  { isCreateEmptyFileEnabled := true
    isCreateWithContentEnabled := true
    isCreateDirectoryStructureEnabled := true
    allowedExtensions := [str ".txt", str ".md"]
    heuristicWordCountLimit := 5
    createEmptyDirectories := true
    skipExistingDirectories := true }

/-- An environment in which every modelled OS call succeeds. -/
def okEnv : IOEnv := { openFails := false, writeFails := false, moveFails := false }

/-- Invariant carried by the tree-glyph parser stack: every accumulated child
list (of the open directories and of the root) satisfies the tree invariant. -/
def tOkInv (st : TStack) : Prop :=
  (∀ e ∈ st.1, treeOkList e.2 = true) ∧ treeOkList st.2 = true

/-- The same invariant for the indentation parser stack. -/
def iOkInv (st : IStack) : Prop :=
  (∀ e ∈ st.1, treeOkList e.2.2 = true) ∧ treeOkList st.2 = true

/-! ## Theorems -/

theorem hasSub_cons (x : Char) (t n : Wstr) :
    hasSub (x :: t) n = (leadMatch n (x :: t) || hasSub t n) := by
  by_cases h : leadMatch n (x :: t) = true
  · simp [hasSub, findSubIdx, h]
  · simp only [hasSub]
    rw [findSubIdx]
    simp [h, Option.isSome_map']

theorem hasSub_append_left (xs h n : Wstr) (hh : hasSub h n = true) :
    hasSub (xs ++ h) n = true := by
  induction xs with
  | nil => simpa using hh
  | cons x t ih => rw [List.cons_append, hasSub_cons]; simp [ih]

/-- Claim C1: any path containing `../` or `..\`, carrying a drive colon at
index 1, or starting with a path separator is rejected by `IsPathSafe`; the
materialization of a tree node whose full destination path is unsafe — in
particular any node named `"../evil"` — fails immediately, leaving the
filesystem exactly as it was (so nothing is created outside the destination
root). -/
theorem claim_C1 :
    (∀ p : Wstr,
       (hasSub p (str "../") = true ∨ hasSub p (str "..\\") = true ∨
        (2 ≤ p.length ∧ charAt? p 1 = some ':') ∨
        p.head? = some '\\' ∨ p.head? = some '/') →
       IsPathSafe p = false) ∧
    (∀ (s : Settings) (fs : FS) (parentPath : Wstr) (node : TreeNode),
       IsPathSafe (parentPath ++ '\\' :: node.name) = false →
       createNode s node parentPath fs = (fs, false)) ∧
    (∀ (s : Settings) (fs : FS) (parentPath : Wstr) (node : TreeNode),
       node.name = str "../evil" →
       IsPathSafe (parentPath ++ '\\' :: node.name) = false ∧
       createNode s node parentPath fs = (fs, false)) := by
  have h1 : ∀ p : Wstr,
      (hasSub p (str "../") = true ∨ hasSub p (str "..\\") = true ∨
       (2 ≤ p.length ∧ charAt? p 1 = some ':') ∨
       p.head? = some '\\' ∨ p.head? = some '/') →
      IsPathSafe p = false := by
    intro p hp
    unfold IsPathSafe
    split_ifs with c1 c2 c3 c4
    · rfl
    · rfl
    · rfl
    · rfl
    · exfalso
      rcases hp with h | h | h | h | h
      · exact c1 (Or.inr h)
      · exact c1 (Or.inl h)
      · exact c2 h
      · exact c3 (Or.inl h)
      · exact c3 (Or.inr h)
  have h2 : ∀ (s : Settings) (fs : FS) (parentPath : Wstr) (node : TreeNode),
      IsPathSafe (parentPath ++ '\\' :: node.name) = false →
      createNode s node parentPath fs = (fs, false) := by
    intro s fs parentPath node hbad
    match node with
    | .mk nm d c ch =>
      simp only [TreeNode.name] at hbad
      rw [createNode]
      simp [hbad]
  refine ⟨h1, h2, ?_⟩
  intro s fs parentPath node hname
  have hsub : hasSub (parentPath ++ '\\' :: node.name) (str "../") = true := by
    rw [hname]
    have : parentPath ++ '\\' :: str "../evil" = (parentPath ++ ['\\']) ++ str "../evil" := by
      simp
    rw [this]
    exact hasSub_append_left _ _ _ (by decide)
  have hps := h1 _ (Or.inl hsub)
  exact ⟨hps, h2 s fs parentPath node hps⟩

/-- Claim C1 witness: the general theorem applied to a concrete node named
`"../evil"` under a concrete destination. -/
theorem claim_C1_witness :
    IsPathSafe (str "dest" ++ '\\' :: (TreeNode.mk (str "../evil") true [] []).name) = false ∧
    createNode testSettings (TreeNode.mk (str "../evil") true [] []) (str "dest")
      [(str "dest", true, [])] = ([(str "dest", true, [])], false) :=
  claim_C1.2.2 testSettings [(str "dest", true, [])] (str "dest")
    (TreeNode.mk (str "../evil") true [] []) rfl

/-- Claim C2: parsing the PathList input `["a/b/c.txt", "a/b/d.txt", "a/e.txt"]`
and materializing it against an empty destination directory `dest` creates
exactly the directories `dest\a` and `dest\a\b` and the empty files
`dest\a\b\c.txt`, `dest\a\b\d.txt`, `dest\a\e.txt`, and nothing else, and the
operation reports success. -/
theorem claim_C2 :
    CreateDirectoryStructure testSettings
      (ParsePathListFormat [str "a/b/c.txt", str "a/b/d.txt", str "a/e.txt"])
      (str "dest") [(str "dest", true, [])] =
    ([(str "dest", true, []),
      (str "dest\\a", true, []),
      (str "dest\\a\\b", true, []),
      (str "dest\\a\\b\\c.txt", false, []),
      (str "dest\\a\\b\\d.txt", false, []),
      (str "dest\\a\\e.txt", false, [])], true) := by decide

/-- Claim C8: any text containing one of the box-drawing glyphs `├`, `└`, `│`
is detected as the tree-glyph format, whatever else the text contains. -/
theorem claim_C8 :
    ∀ text : Wstr, ('├' ∈ text ∨ '└' ∈ text ∨ '│' ∈ text) →
      DetectTreeFormat text = TreeFormat.TreeCommand := by
  intro text h
  unfold DetectTreeFormat
  have hc : (text.contains '├' = true ∨ text.contains '└' = true ∨ text.contains '│' = true) := by
    rcases h with h | h | h
    · exact Or.inl (List.elem_eq_true_of_mem h)
    · exact Or.inr (Or.inl (List.elem_eq_true_of_mem h))
    · exact Or.inr (Or.inr (List.elem_eq_true_of_mem h))
  rw [if_pos hc]

/-- Claim C8 witness: a text that also contains a content marker and slashes
is still classified as tree-glyph. -/
theorem claim_C8_witness :
    DetectTreeFormat (str "├── a\n---START: x---\npath/y") = TreeFormat.TreeCommand :=
  claim_C8 _ (Or.inl (by decide))

set_option maxRecDepth 8192
set_option maxHeartbeats 1000000

theorem drop3_ne_iff {b : Wstr} : b.drop 3 ≠ [] ↔ 4 ≤ b.length := by
  rw [ne_eq, List.drop_eq_nil_iff]
  omega

theorem reservedSpec_eq (f : Wstr) : specReservedName f = reservedBaseW (baseNameOf f) := by
  simp only [specReservedName, reservedBaseW]
  rw [decide_eq_decide]
  constructor
  · rintro (h | h | h | h | ⟨h1, h2, h3⟩ | ⟨h1, h2, h3⟩)
    · exact Or.inl h
    · exact Or.inr (Or.inl h)
    · exact Or.inr (Or.inr (Or.inl h))
    · exact Or.inr (Or.inr (Or.inr (Or.inl h)))
    · exact Or.inr (Or.inr (Or.inr (Or.inr (Or.inl ⟨drop3_ne_iff.mp h2, h1, h3⟩))))
    · exact Or.inr (Or.inr (Or.inr (Or.inr (Or.inr ⟨drop3_ne_iff.mp h2, h1, h3⟩))))
  · rintro (h | h | h | h | ⟨h1, h2, h3⟩ | ⟨h1, h2, h3⟩)
    · exact Or.inl h
    · exact Or.inr (Or.inl h)
    · exact Or.inr (Or.inr (Or.inl h))
    · exact Or.inr (Or.inr (Or.inr (Or.inl h)))
    · exact Or.inr (Or.inr (Or.inr (Or.inr (Or.inl ⟨h2, drop3_ne_iff.mpr h1, h3⟩))))
    · exact Or.inr (Or.inr (Or.inr (Or.inr (Or.inr ⟨h2, drop3_ne_iff.mpr h1, h3⟩))))

/-- Claim C9: the filename validator rejects exactly the inputs the
specification lists — empty, over-long, forbidden character, control
character, reserved device name (extension ignored, case-insensitive),
all-dots, trailing dot, traversal sequence, or leading drive/path indicator —
and in particular rejects `"CON"`, `"con.txt"`, `"a.."`, `"..\x"`, `"a/b"`
and a 300-character name while accepting `"notes.md"`. -/
theorem claim_C9 :
    (∀ name : Wstr, IsValidFilename name = false ↔ specInvalidFilename name = true) ∧
    IsValidFilename (str "CON") = false ∧
    IsValidFilename (str "con.txt") = false ∧
    IsValidFilename (str "a..") = false ∧
    IsValidFilename (str "..\\x") = false ∧
    IsValidFilename (str "a/b") = false ∧
    IsValidFilename (List.replicate 300 'a') = false ∧
    IsValidFilename (str "notes.md") = true := by
  refine ⟨?_, by decide, by decide, by decide, by decide, by decide, by decide, by decide⟩
  intro name
  unfold IsValidFilename specInvalidFilename
  rw [reservedSpec_eq name]
  split_ifs with h1 h2 h3 h4 h5 h6 h7 h8 h9 h10
  all_goals
    first
    | exact iff_of_true rfl (by simp only [decide_eq_true_eq]; tauto)
    | exact iff_of_false (by simp) (by simp only [decide_eq_true_eq]; tauto)

/-- Claim C9 witness: the characterization applied at `"CON"` and `"a.."`. -/
theorem claim_C9_witness :
    IsValidFilename (str "CON") = false ∧ IsValidFilename (str "a..") = false :=
  ⟨(claim_C9.1 (str "CON")).mpr (by decide), (claim_C9.1 (str "a..")).mpr (by decide)⟩

theorem lookupFS_append_of_none {a : FS} {p : Wstr} (h : lookupFS a p = none) (b : FS) :
    lookupFS (a ++ b) p = lookupFS b p := by
  induction a with
  | nil => simp
  | cons e rest ih =>
    match e with
    | (q, d, c) =>
      simp only [lookupFS] at h
      by_cases hq : q = p
      · rw [if_pos hq] at h
        exact absurd h (by simp)
      · rw [if_neg hq] at h
        simp only [List.cons_append, lookupFS, if_neg hq]
        exact ih h

theorem existsPath_false_lookup {fs : FS} {p : Wstr} (h : existsPath fs p = false) :
    lookupFS fs p = none := by
  unfold existsPath at h
  cases hl : lookupFS fs p
  · rfl
  · rw [hl] at h
    simp at h

theorem removePath_of_not_exists {fs : FS} {p : Wstr} (h : existsPath fs p = false) :
    removePath fs p = fs := by
  induction fs with
  | nil => rfl
  | cons e rest ih =>
    match e with
    | (q, d, c) =>
      simp only [existsPath, lookupFS] at h
      by_cases hq : q = p
      · rw [if_pos hq] at h
        simp at h
      · rw [if_neg hq] at h
        simp only [removePath, if_neg hq]
        rw [ih h]

theorem removePath_append (a b : FS) (p : Wstr) :
    removePath (a ++ b) p = removePath a p ++ removePath b p := by
  induction a with
  | nil => rfl
  | cons e rest ih =>
    match e with
    | (q, d, c) =>
      simp only [List.cons_append, removePath]
      by_cases hq : q = p
      · simp [hq, ih]
      · simp [hq, ih]

theorem removePath_fresh_append (fs : FS) (temp : Wstr) (d : Bool) (c : Wstr)
    (h : existsPath fs temp = false) :
    removePath (fs ++ [(temp, d, c)]) temp = fs := by
  rw [removePath_append, removePath_of_not_exists h]
  simp [removePath]

theorem moveReplace_fresh (fs : FS) (temp target : Wstr) (d : Bool) (c : Wstr)
    (hfree : existsPath fs temp = false) :
    moveReplace (fs ++ [(temp, d, c)]) temp target =
      removePath fs target ++ [(target, d, c)] := by
  have hl : lookupFS (fs ++ [(temp, d, c)]) temp = some (d, c) := by
    rw [lookupFS_append_of_none (existsPath_false_lookup hfree)]
    simp [lookupFS]
  simp only [moveReplace, hl, removePath_fresh_append fs temp d c hfree]

theorem splitDriveW_concat (p : Wstr) : (splitDriveW p).1 ++ (splitDriveW p).2 = p := by
  unfold splitDriveW
  match p with
  | [] => rfl
  | [a] => rfl
  | a :: b :: r =>
    by_cases hb : b = ':'
    · simp [hb]
    · simp [hb]

theorem splitDirW_concat (rest : Wstr) : (splitDirW rest).1 ++ (splitDirW rest).2 = rest := by
  unfold splitDirW
  cases h : lastIdxOfPred (fun c => c = '/' ∨ c = '\\') rest
  · simp
  · simp [List.take_append_drop]

theorem splitExtW_concat (base : Wstr) : (splitExtW base).1 ++ (splitExtW base).2 = base := by
  unfold splitExtW
  cases h : lastIdxOfPred (fun c => c = '.') base
  · simp
  · simp [List.take_append_drop]

theorem splitPath4_concat (p : Wstr) :
    (splitPath4 p).1 ++ (splitPath4 p).2.1 ++ (splitPath4 p).2.2.1 ++ (splitPath4 p).2.2.2 = p := by
  unfold splitPath4
  calc (splitDriveW p).1 ++ (splitDirW (splitDriveW p).2).1 ++
        (splitExtW (splitDirW (splitDriveW p).2).2).1 ++
        (splitExtW (splitDirW (splitDriveW p).2).2).2
      = (splitDriveW p).1 ++ ((splitDirW (splitDriveW p).2).1 ++
        ((splitExtW (splitDirW (splitDriveW p).2).2).1 ++
         (splitExtW (splitDirW (splitDriveW p).2).2).2)) := by simp [List.append_assoc]
    _ = (splitDriveW p).1 ++ ((splitDirW (splitDriveW p).2).1 ++
        (splitDirW (splitDriveW p).2).2) := by rw [splitExtW_concat]
    _ = (splitDriveW p).1 ++ (splitDriveW p).2 := by rw [splitDirW_concat]
    _ = p := splitDriveW_concat p

theorem tempPathOf_ne_target (target : Wstr) (k : Nat) : tempPathOf target k ≠ target := by
  intro h
  have hc := congrArg List.length (splitPath4_concat target)
  have hlen := congrArg List.length h
  have h5 : (str "_tmp_").length = 5 := by decide
  simp only [tempPathOf, List.length_append] at hlen hc
  omega

theorem findFreeCounter_spec (fs : FS) (target : Wstr) :
    ∀ (fuel k0 k : Nat), findFreeCounter fs target k0 fuel = some k →
      existsPath fs (tempPathOf target k) = false ∧ k0 ≤ k ∧ k < k0 + fuel ∧
      (∀ j, k0 ≤ j → j < k → existsPath fs (tempPathOf target j) = true) := by
  intro fuel
  induction fuel with
  | zero =>
    intro k0 k h
    simp [findFreeCounter] at h
  | succ n ih =>
    intro k0 k h
    rw [findFreeCounter] at h
    by_cases he : existsPath fs (tempPathOf target k0) = true
    · rw [if_pos he] at h
      obtain ⟨a, b, c, d⟩ := ih (k0 + 1) k h
      refine ⟨a, by omega, by omega, ?_⟩
      intro j hj1 hj2
      by_cases hj : j = k0
      · rw [hj]
        exact he
      · exact d j (by omega) hj2
    · rw [if_neg he] at h
      obtain rfl := Option.some.inj h
      refine ⟨by simpa using he, Nat.le_refl _, by omega, ?_⟩
      intro j hj1 hj2
      omega

theorem findTempName_spec (fs : FS) (target : Wstr) (k : Nat)
    (hft : findTempName fs target = some k) :
    existsPath fs (tempPathOf target k) = false ∧ k < 999 ∧
    ∀ j, j < k → existsPath fs (tempPathOf target j) = true := by
  unfold findTempName at hft
  obtain ⟨a, _, c, d⟩ := findFreeCounter_spec fs target 999 0 k hft
  exact ⟨a, by omega, fun j hj => d j (Nat.zero_le _) hj⟩

/-- Claim C3: the atomic-replace helpers first search for a free sibling temp
name of the form `<fname>_tmp_<counter><ext>`, trying counters from 0 upward
(bounded); on any failure — temp-name exhaustion, open/write failure, or move
failure — the helper returns `false` and the filesystem (in particular the
target file) is exactly as before, the temp file having been removed; on
success the whole content is written to the temp file which is then moved over
the target with replace-existing semantics, so the final state carries the
target with the new content, no temp file, and everything else untouched. -/
theorem claim_C3 :
    (∀ (env : IOEnv) (fs : FS) (target content : Wstr),
       (CreateFileWithContentAtomic env fs target content).2 = false →
       (CreateFileWithContentAtomic env fs target content).1 = fs) ∧
    (∀ (env : IOEnv) (fs : FS) (target : Wstr),
       (CreateEmptyFileAtomic env fs target).2 = false →
       (CreateEmptyFileAtomic env fs target).1 = fs) ∧
    (∀ (fs : FS) (target : Wstr) (k : Nat),
       findTempName fs target = some k →
       existsPath fs (tempPathOf target k) = false ∧ k < 999 ∧
       ∀ j, j < k → existsPath fs (tempPathOf target j) = true) ∧
    (∀ (env : IOEnv) (fs : FS) (target content : Wstr) (k : Nat),
       findTempName fs target = some k →
       env.openFails = false → env.writeFails = false → env.moveFails = false →
       canOpenWrite fs (tempPathOf target k) = true →
       CreateFileWithContentAtomic env fs target content =
         (removePath fs target ++ [(target, false, content)], true)) ∧
    (∀ (env : IOEnv) (fs : FS) (target : Wstr) (k : Nat),
       findTempName fs target = some k →
       env.openFails = false → env.moveFails = false →
       canOpenWrite fs (tempPathOf target k) = true →
       CreateEmptyFileAtomic env fs target =
         (removePath fs target ++ [(target, false, [])], true)) := by
  refine ⟨?_, ?_, fun fs target k h => findTempName_spec fs target k h, ?_, ?_⟩
  · intro env fs target content
    unfold CreateFileWithContentAtomic
    cases hft : findTempName fs target with
    | none =>
      intro _
      rfl
    | some k =>
      dsimp only
      have hfree : existsPath fs (tempPathOf target k) = false :=
        (findTempName_spec fs target k hft).1
      by_cases ho : (env.openFails = true ∨ canOpenWrite fs (tempPathOf target k) = false)
      · rw [if_pos ho]
        intro _
        rfl
      · rw [if_neg ho]
        have hlook := existsPath_false_lookup hfree
        have hcanT : canOpenWrite fs (tempPathOf target k) = true := by
          cases hcw : canOpenWrite fs (tempPathOf target k)
          · exact absurd hcw (not_or.mp ho).2
          · rfl
        have hpar : parentDirOk fs (tempPathOf target k) = true := by
          unfold canOpenWrite at hcanT
          rw [hlook] at hcanT
          exact hcanT
        have how : openWriteFile fs (tempPathOf target k) content =
            (fs ++ [(tempPathOf target k, false, content)], true) := by
          unfold openWriteFile
          rw [hlook]
          simp [hpar]
        rw [how]
        cases hw : env.writeFails
        · cases hm : env.moveFails
          · simp [hw, hm]
          · simp [hw, hm]
            exact removePath_fresh_append fs _ false content hfree
        · simp [hw]
          exact removePath_fresh_append fs _ false content hfree
  · intro env fs target
    unfold CreateEmptyFileAtomic
    cases hft : findTempName fs target with
    | none =>
      intro _
      rfl
    | some k =>
      dsimp only
      have hfree : existsPath fs (tempPathOf target k) = false :=
        (findTempName_spec fs target k hft).1
      by_cases ho : (env.openFails = true ∨ canOpenWrite fs (tempPathOf target k) = false)
      · rw [if_pos ho]
        intro _
        rfl
      · rw [if_neg ho]
        cases hm : env.moveFails
        · simp [hm]
        · simp [hm]
          exact removePath_fresh_append fs _ false [] hfree
  · intro env fs target content k hft hop hw hm hcan
    unfold CreateFileWithContentAtomic
    rw [hft]
    dsimp only
    have hfree : existsPath fs (tempPathOf target k) = false :=
      (findTempName_spec fs target k hft).1
    have hlook := existsPath_false_lookup hfree
    have hpar : parentDirOk fs (tempPathOf target k) = true := by
      unfold canOpenWrite at hcan
      rw [hlook] at hcan
      exact hcan
    have hno : ¬(env.openFails = true ∨ canOpenWrite fs (tempPathOf target k) = false) := by
      rw [hop, hcan]
      simp
    rw [if_neg hno]
    have how : openWriteFile fs (tempPathOf target k) content =
        (fs ++ [(tempPathOf target k, false, content)], true) := by
      unfold openWriteFile
      rw [hlook]
      simp [hpar]
    rw [how]
    simp only [hw, hm, Bool.false_eq_true, if_false]
    rw [moveReplace_fresh fs (tempPathOf target k) target false content hfree]
  · intro env fs target k hft hop hm hcan
    unfold CreateEmptyFileAtomic
    rw [hft]
    dsimp only
    have hfree : existsPath fs (tempPathOf target k) = false :=
      (findTempName_spec fs target k hft).1
    have hno : ¬(env.openFails = true ∨ canOpenWrite fs (tempPathOf target k) = false) := by
      rw [hop, hcan]
      simp
    rw [if_neg hno]
    simp only [hm, Bool.false_eq_true, if_false]
    rw [moveReplace_fresh fs (tempPathOf target k) target false [] hfree]

/-- Claim C3 witness: a successful replace and a failed move, both at concrete
inputs, via the general theorem. -/
theorem claim_C3_witness :
    CreateFileWithContentAtomic okEnv [(str "d", true, []), (str "d\\a.txt", false, str "old")]
        (str "d\\a.txt") (str "new") =
      (removePath [(str "d", true, []), (str "d\\a.txt", false, str "old")] (str "d\\a.txt") ++
        [(str "d\\a.txt", false, str "new")], true) ∧
    (CreateFileWithContentAtomic { openFails := false, writeFails := false, moveFails := true }
        [(str "d", true, []), (str "d\\a.txt", false, str "old")]
        (str "d\\a.txt") (str "new")).1 =
      [(str "d", true, []), (str "d\\a.txt", false, str "old")] :=
  ⟨claim_C3.2.2.2.1 okEnv [(str "d", true, []), (str "d\\a.txt", false, str "old")]
      (str "d\\a.txt") (str "new") 0 (by decide) rfl rfl rfl (by decide),
   claim_C3.1 { openFails := false, writeFails := false, moveFails := true }
      [(str "d", true, []), (str "d\\a.txt", false, str "old")]
      (str "d\\a.txt") (str "new") (by decide)⟩

/-- Claim C4 counterexample: with extensions `{.txt, .md}`, limit 5 and no
regexes, the clipboard `"a.txt\nb.txt c.txt"` classifies `a.txt` and then
finds the two space-separated tokens of the next line; the materialized batch
is `[a.txt, b.txt, c.txt]` — the originally classified filename is kept, not
discarded as the claim states. -/
theorem claim_C4_cex :
    TryFileGenerationOutcome testSettings [] (str "a.txt\nb.txt c.txt") =
      GenOutcome.batch [str "a.txt", str "b.txt", str "c.txt"] ∧
    TryFileGenerationOutcome testSettings [] (str "a.txt\nb.txt c.txt") ≠
      GenOutcome.batch [str "b.txt", str "c.txt"] := by
  constructor
  · decide
  · decide

/-- Claim C4, amended: when the first line of the remaining text holds two or
more whitespace-separated tokens that each validate as allowed-extension
filenames within the word-count limit, the batch that is materialized is the
originally classified filename followed by exactly that token set. -/
theorem claim_C4 :
    ∀ (s : Settings) (ms : List Matcher) (text fn content : Wstr) (ep : Nat)
      (l0 : Wstr) (rest : List Wstr),
      classifyHeuristic s ms text = HeurResult.found fn content ep →
      s.isCreateEmptyFileEnabled = true →
      (getlineSplitBy '\n' (text.drop ep)).map (trimBoth [' ', '\t', '\r']) = l0 :: rest →
      2 ≤ (tokenize l0).length →
      (∀ w ∈ tokenize l0, lineIsFilename s w = true) →
      TryFileGenerationOutcome s ms text = GenOutcome.batch (fn :: tokenize l0) := by
  intro s ms text fn content ep l0 rest hcl hemp hlines hlen hall
  have hfa : FindAdditionalFilenames s text ep = tokenize l0 := by
    unfold FindAdditionalFilenames
    rw [hlines]
    dsimp only
    rw [List.filter_eq_self.mpr hall]
    rw [if_pos (by omega)]
  unfold TryFileGenerationOutcome
  rw [hcl]
  dsimp only
  rw [hfa, hemp]
  simp only [if_true]
  rw [if_pos]
  constructor
  · trivial
  · simp
    omega

/-- Claim C4 witness: the amended statement applied to the counterexample
input. -/
theorem claim_C4_witness :
    TryFileGenerationOutcome testSettings [] (str "a.txt\nb.txt c.txt") =
      GenOutcome.batch (str "a.txt" :: tokenize (str "b.txt c.txt")) :=
  claim_C4 testSettings [] (str "a.txt\nb.txt c.txt") (str "a.txt") (str "b.txt c.txt") 6
    (str "b.txt c.txt") [] (by decide) rfl (by decide) (by decide) (by decide)

/-- Claim C5 counterexample: with TWO explorer candidates the resolver returns
the first, and materializing the clipboard `"a.txt\nb.txt"` proceeds — it
creates `dest\a.txt` and `dest\b.txt` and reports success, so two candidates
are not treated as "no destination available" and the operation is not a
no-op. -/
theorem claim_C5_cex :
    GetSingleExplorerPath [str "dest", str "dest2"] = str "dest" ∧
    TryFileGenerationRun testSettings [] okEnv [str "dest", str "dest2"]
        (str "a.txt\nb.txt") [(str "dest", true, []), (str "dest2", true, [])]
        FileConflictAction.Skip =
      ([(str "dest", true, []), (str "dest2", true, []),
        (str "dest\\a.txt", false, []), (str "dest\\b.txt", false, [])], true) := by
  constructor
  · rfl
  · decide

/-- Claim C5, amended: only an empty candidate list is "no destination" — the
resolver then yields the empty path and the single-file, batch and whole
file-generation flows leave the filesystem untouched (the single-file path
silently, the batch path after an error notification); with one or more
candidates the FIRST candidate is used and the operation proceeds. -/
theorem claim_C5 :
    GetSingleExplorerPath [] = [] ∧
    (∀ (p : Wstr) (ps : List Wstr), GetSingleExplorerPath (p :: ps) = p) ∧
    (∀ (env : IOEnv) (fs : FS) (fn content : Wstr) (choice : FileConflictAction),
       (singlePart env [] fs fn content choice).1 = fs) ∧
    (∀ (env : IOEnv) (fs : FS) (names : List Wstr) (choice : FileConflictAction),
       (batchPart env [] fs names choice).1 = fs) ∧
    (∀ (s : Settings) (ms : List Matcher) (env : IOEnv) (text : Wstr) (fs : FS)
       (choice : FileConflictAction),
       (TryFileGenerationRun s ms env [] text fs choice).1 = fs) := by
  have hsingle : ∀ (env : IOEnv) (fs : FS) (fn content : Wstr) (choice : FileConflictAction),
      (singlePart env [] fs fn content choice).1 = fs := by
    intro env fs fn content choice
    unfold singlePart
    by_cases hv : IsValidFilename (trimBoth [' ', '\t', '\n', '\r'] fn) = false
    · rw [if_pos hv]
    · rw [if_neg hv]
      rfl
  have hbatch : ∀ (env : IOEnv) (fs : FS) (names : List Wstr) (choice : FileConflictAction),
      (batchPart env [] fs names choice).1 = fs := by
    intro env fs names choice
    unfold batchPart
    rfl
  refine ⟨rfl, fun p ps => rfl, hsingle, hbatch, ?_⟩
  intro s ms env text fs choice
  unfold TryFileGenerationRun
  cases hcl : classifyHeuristic s ms text with
  | abort => rfl
  | noMatch => rfl
  | found fn content ep =>
    dsimp only
    cases hemp : s.isCreateEmptyFileEnabled
    · simp only [Bool.false_eq_true, if_false]
      exact hsingle env fs fn content choice
    · simp only [if_true]
      by_cases hlen : 2 ≤ (fn :: FindAdditionalFilenames s text ep).length
      · rw [if_pos hlen]
        exact hbatch env fs _ choice
      · rw [if_neg hlen]
        exact hsingle env fs fn content choice

/-- Claim C6 counterexample: a configured pattern that full-line matches
`"readme.txt"` with an EMPTY capture group 1 (as `(q*)(?=r)readme\.txt` style
patterns do) still "succeeds": Priority 1 takes the empty capture as the
filename instead of falling through, so without the pattern the same input
classifies as `readme.txt` via the word-count tier, while with it the
classifier returns the empty filename — which then fails validation and stops
the whole operation instead of creating `readme.txt`. -/
theorem claim_C6_cex :
    classifyHeuristic testSettings
        [fun l => if l = str "readme.txt" then some [str "readme.txt", []] else none]
        (str "readme.txt") = HeurResult.found [] [] 10 ∧
    classifyHeuristic testSettings [] (str "readme.txt") =
      HeurResult.found (str "readme.txt") [] 10 ∧
    TryFileGenerationOutcome testSettings
        [fun l => if l = str "readme.txt" then some [str "readme.txt", []] else none]
        (str "readme.txt") = GenOutcome.handledInvalid := by
  refine ⟨?_, ?_, ?_⟩
  · decide
  · decide
  · decide

/-- Claim C6, amended: with content creation enabled, Priority 1 tries the
configured patterns in order against the trimmed first line; a pattern
succeeds exactly when it matches with more than one match entry (i.e. the
pattern has a capture group — the captured text may be empty), the first
success supplies match entry 1 as the filename with everything after the
first line as content, and no lower tier is consulted. -/
theorem claim_C6 :
    (∀ (m : Matcher) (ms : List Matcher) (l : Wstr) (g : List Wstr),
       m l = some g → 1 < g.length → firstMatchP1 (m :: ms) l = some g) ∧
    (∀ (m : Matcher) (ms : List Matcher) (l : Wstr),
       (∀ g, m l = some g → ¬1 < g.length) →
       firstMatchP1 (m :: ms) l = firstMatchP1 ms l) ∧
    (∀ (s : Settings) (ms : List Matcher) (text : Wstr) (i : Nat) (g : List Wstr),
       s.isCreateWithContentEnabled = true →
       idxOfChar '\n' text = some i →
       firstMatchP1 ms (trimBoth [' ', '\t', '\r', '\n'] (text.take i)) = some g →
       classifyHeuristic s ms text =
         HeurResult.found (g.getD 1 []) (text.drop (i + 1)) (i + 1)) ∧
    (∀ (s : Settings) (ms : List Matcher) (text : Wstr) (g : List Wstr),
       s.isCreateWithContentEnabled = true →
       idxOfChar '\n' text = none →
       firstMatchP1 ms (trimBoth [' ', '\t', '\r', '\n'] text) = some g →
       classifyHeuristic s ms text = HeurResult.found (g.getD 1 []) [] text.length) := by
  refine ⟨?_, ?_, ?_, ?_⟩
  · intro m ms l g hm hg
    unfold firstMatchP1
    rw [hm]
    dsimp only
    rw [if_pos hg]
  · intro m ms l hfail
    conv_lhs => rw [firstMatchP1]
    cases hm : m l with
    | none => rfl
    | some g =>
      dsimp only
      rw [if_neg (hfail g hm)]
  · intro s ms text i g hcont hnl hfm
    unfold classifyHeuristic
    rw [if_neg (fun hand => by rw [hcont] at hand; exact Bool.noConfusion hand.2)]
    rw [hnl]
    dsimp only
    rw [if_neg (fun hc => by rw [hcont] at hc; exact Bool.noConfusion hc)]
    rw [hfm]
  · intro s ms text g hcont hnl hfm
    unfold classifyHeuristic
    rw [if_neg (fun hand => by rw [hcont] at hand; exact Bool.noConfusion hand.2)]
    rw [hnl]
    dsimp only
    rw [hcont]
    simp only [if_true]
    rw [hfm]

/-- Claim C6 witness: the multi-line part applied to a concrete pattern whose
first capture is `a.txt`. -/
theorem claim_C6_witness :
    classifyHeuristic testSettings
        [fun l => if l = str "a.txt" then some [str "a.txt", str "a.txt"] else none]
        (str "a.txt\nbody") = HeurResult.found (str "a.txt") (str "body") 6 :=
  claim_C6.2.2.1 testSettings
    [fun l => if l = str "a.txt" then some [str "a.txt", str "a.txt"] else none]
    (str "a.txt\nbody") 5 [str "a.txt", str "a.txt"] rfl (by decide) (by decide)

/-- Claim C7 counterexample: for the multi-line clipboard
`"readme.txt\nHello"` with no matching regex, the word-count tier fires, but
the outcome is a file with content `"Hello"` — not an empty file — and when
only the empty-file feature is enabled (content creation off) the classifier
aborts before the word-count tier, so the outcome does not require "only the
empty-file-creation feature". -/
theorem claim_C7_cex :
    TryFileGenerationOutcome testSettings [] (str "readme.txt\nHello") =
      GenOutcome.single (str "readme.txt") (str "Hello") ∧
    str "Hello" ≠ ([] : Wstr) ∧
    classifyHeuristic { testSettings with isCreateWithContentEnabled := false } []
      (str "readme.txt\nHello") = HeurResult.abort := by
  refine ⟨?_, ?_, ?_⟩
  · decide
  · decide
  · decide

/-- Claim C7, amended: the word-count tier classifies the whole trimmed first
line as the filename when its extension is allowed and its token count is
within the limit and no higher tier fired; for a single-line clipboard this
needs only the empty-file feature and yields an empty file, while for a
multi-line clipboard content creation must also be enabled and the text after
the first line becomes the file content (the file is empty only when that
remainder is empty); with content creation disabled a multi-line clipboard is
never classified. -/
theorem claim_C7 :
    (∀ (s : Settings) (ms : List Matcher) (text : Wstr),
       idxOfChar '\n' text = none →
       s.isCreateEmptyFileEnabled = true →
       (s.isCreateWithContentEnabled = true →
         firstMatchP1 ms (trimBoth [' ', '\t', '\r', '\n'] text) = none) →
       (∀ w ∈ (tokenize (trimBoth [' ', '\t', '\r', '\n'] text)).take 1,
         extAllowed s w = false) →
       extAllowed s (trimBoth [' ', '\t', '\r', '\n'] text) = true →
       CountWords (trimBoth [' ', '\t', '\r', '\n'] text) ≤ s.heuristicWordCountLimit →
       classifyHeuristic s ms text =
         HeurResult.found (trimBoth [' ', '\t', '\r', '\n'] text) [] text.length) ∧
    (∀ (s : Settings) (ms : List Matcher) (text : Wstr) (i : Nat),
       idxOfChar '\n' text = some i →
       s.isCreateWithContentEnabled = true →
       s.isCreateEmptyFileEnabled = true →
       firstMatchP1 ms (trimBoth [' ', '\t', '\r', '\n'] (text.take i)) = none →
       extAllowed s (trimBoth [' ', '\t', '\r', '\n'] (text.take i)) = true →
       CountWords (trimBoth [' ', '\t', '\r', '\n'] (text.take i)) ≤
         s.heuristicWordCountLimit →
       classifyHeuristic s ms text =
         HeurResult.found (trimBoth [' ', '\t', '\r', '\n'] (text.take i))
           (text.drop (i + 1)) (i + 1)) ∧
    (∀ (s : Settings) (ms : List Matcher) (text : Wstr) (i : Nat),
       idxOfChar '\n' text = some i →
       s.isCreateWithContentEnabled = false →
       classifyHeuristic s ms text = HeurResult.abort) := by
  refine ⟨?_, ?_, ?_⟩
  · intro s ms text hnl hemp hp1 hp2 hext hcw
    unfold classifyHeuristic
    rw [if_neg (fun hand => by rw [hemp] at hand; exact Bool.noConfusion hand.1)]
    rw [hnl]
    dsimp only
    have hP1 : (if s.isCreateWithContentEnabled = true then
        firstMatchP1 ms (trimBoth [' ', '\t', '\r', '\n'] text) else none) = none := by
      by_cases hc : s.isCreateWithContentEnabled = true
      · rw [if_pos hc]
        exact hp1 hc
      · rw [if_neg hc]
    rw [hP1]
    dsimp only
    have hP2 : classifyP2 s (trimBoth [' ', '\t', '\r', '\n'] text) = none := by
      unfold classifyP2
      cases hl : tokenize (trimBoth [' ', '\t', '\r', '\n'] text) with
      | nil => rfl
      | cons a as =>
        dsimp only [List.head?]
        have hw : extAllowed s a = false := by
          apply hp2
          rw [hl]
          simp
        rw [hw]
        simp
    rw [hP2]
    dsimp only
    unfold classifyP3
    rw [if_pos ⟨hext, hcw⟩,
      if_neg (fun h => by rw [hemp] at h; exact Bool.noConfusion h)]
  · intro s ms text i hnl hcont hemp hfm hext hcw
    unfold classifyHeuristic
    rw [if_neg (fun hand => by rw [hcont] at hand; exact Bool.noConfusion hand.2)]
    rw [hnl]
    dsimp only
    rw [if_neg (fun hc => by rw [hcont] at hc; exact Bool.noConfusion hc)]
    rw [hfm]
    dsimp only
    unfold classifyP3
    rw [if_pos ⟨hext, hcw⟩,
      if_neg (fun h => by rw [hemp] at h; exact Bool.noConfusion h)]
  · intro s ms text i hnl hcont
    unfold classifyHeuristic
    by_cases hemp : s.isCreateEmptyFileEnabled = false
    · rw [if_pos ⟨hemp, hcont⟩]
    · rw [if_neg (fun hand => hemp hand.1)]
      rw [hnl]
      dsimp only
      rw [if_pos hcont]

/-- Claim C7 witness: the single-line part at `"my notes.txt"` (empty file)
and the multi-line part at `"readme.txt\nHello"` (content file). -/
theorem claim_C7_witness :
    classifyHeuristic testSettings [] (str "my notes.txt") =
      HeurResult.found (str "my notes.txt") [] 12 ∧
    classifyHeuristic testSettings [] (str "readme.txt\nHello") =
      HeurResult.found (str "readme.txt") (str "Hello") 11 :=
  ⟨claim_C7.1 testSettings [] (str "my notes.txt") (by decide) rfl (fun _ => rfl)
      (by decide) (by decide) (by decide),
   claim_C7.2.1 testSettings [] (str "readme.txt\nHello") 10 (by decide) rfl rfl rfl
      (by decide) (by decide)⟩

theorem treeOkList_append (a b : List TreeNode) :
    treeOkList (a ++ b) = (treeOkList a && treeOkList b) := by
  induction a with
  | nil => simp [treeOkList]
  | cons t ts ih => simp [treeOkList, ih, Bool.and_assoc]

theorem treeOk_dirOf (nm : Wstr) (cs : List TreeNode) (h : treeOkList cs = true) :
    treeOk (.mk nm true [] cs) = true := by
  rw [treeOk]
  simp [h]

theorem treeOk_fileLeaf (nm : Wstr) : treeOk (.mk nm false [] []) = true := by
  rw [treeOk]
  simp [treeOkList]

theorem tAttach_inv {st : TStack} {n : TreeNode} (h : tOkInv st) (hn : treeOk n = true) :
    tOkInv (tAttach st n) := by
  match st with
  | ([], acc) =>
    refine ⟨?_, ?_⟩
    · intro e he
      simp [tAttach] at he
    · simp only [tAttach]
      rw [treeOkList_append, h.2]
      simp [treeOkList, hn]
  | ((nm, cs) :: rest, acc) =>
    refine ⟨?_, ?_⟩
    · intro e he
      simp only [tAttach, List.mem_cons] at he
      rcases he with he | he
      · subst he
        simp only
        rw [treeOkList_append, h.1 (nm, cs) (List.mem_cons_self _ _)]
        simp [treeOkList, hn]
      · exact h.1 e (List.mem_cons_of_mem _ he)
    · exact h.2

theorem tPop_inv {st : TStack} (h : tOkInv st) : tOkInv (tPop st) := by
  match st with
  | ([], acc) => exact h
  | ((nm, cs) :: rest, acc) =>
    apply tAttach_inv
    · exact ⟨fun e he => h.1 e (List.mem_cons_of_mem _ he), h.2⟩
    · exact treeOk_dirOf nm cs (h.1 (nm, cs) (List.mem_cons_self _ _))

theorem tUnwindAux_inv : ∀ (fuel : Nat) (st : TStack) (k : Nat),
    tOkInv st → tOkInv (tUnwindAux fuel st k) := by
  intro fuel
  induction fuel with
  | zero => intro st k h; exact h
  | succ n ih =>
    intro st k h
    rw [tUnwindAux]
    split
    · exact ih _ _ (tPop_inv h)
    · exact h

theorem tUnwind_inv {st : TStack} {k : Nat} (h : tOkInv st) : tOkInv (tUnwind st k) :=
  tUnwindAux_inv _ _ _ h

theorem parseTCLine_inv {st : TStack} (line : Wstr) (h : tOkInv st) :
    tOkInv (parseTCLine st line) := by
  unfold parseTCLine
  split_ifs with h1
  · exact h
  · dsimp only
    split_ifs with h2 h3 h4
    · exact h
    · exact h
    · refine ⟨?_, (tUnwind_inv h).2⟩
      intro e he
      simp only [List.mem_cons] at he
      rcases he with he | he
      · subst he
        rfl
      · exact (tUnwind_inv h).1 e he
    · exact tAttach_inv (tUnwind_inv h) (treeOk_fileLeaf _)

theorem foldl_parseTCLine_inv : ∀ (lines : List Wstr) (st : TStack),
    tOkInv st → tOkInv (lines.foldl parseTCLine st) := by
  intro lines
  induction lines with
  | nil => intro st h; exact h
  | cons l ls ih => intro st h; exact ih _ (parseTCLine_inv l h)

theorem iAttach_inv {st : IStack} {n : TreeNode} (h : iOkInv st) (hn : treeOk n = true) :
    iOkInv (iAttach st n) := by
  match st with
  | ([], acc) =>
    refine ⟨?_, ?_⟩
    · intro e he
      simp [iAttach] at he
    · simp only [iAttach]
      rw [treeOkList_append, h.2]
      simp [treeOkList, hn]
  | ((nm, d, cs) :: rest, acc) =>
    refine ⟨?_, ?_⟩
    · intro e he
      simp only [iAttach, List.mem_cons] at he
      rcases he with he | he
      · subst he
        simp only
        rw [treeOkList_append, h.1 (nm, d, cs) (List.mem_cons_self _ _)]
        simp [treeOkList, hn]
      · exact h.1 e (List.mem_cons_of_mem _ he)
    · exact h.2

theorem iUnwindFuel_inv : ∀ (fuel : Nat) (st : IStack) (ind : Nat),
    iOkInv st → iOkInv (iUnwindFuel fuel st ind) := by
  intro fuel
  induction fuel with
  | zero => intro st ind h; exact h
  | succ n ih =>
    intro st ind h
    rw [iUnwindFuel.eq_def]
    match st with
    | ([], acc) => exact h
    | ((nm, d, cs) :: rest, acc) =>
      dsimp only
      split_ifs with hd
      · apply ih
        apply iAttach_inv
        · exact ⟨fun e he => h.1 e (List.mem_cons_of_mem _ he), h.2⟩
        · exact treeOk_dirOf nm cs (h.1 (nm, d, cs) (List.mem_cons_self _ _))
      · exact h

theorem iUnwind_inv {st : IStack} {ind : Nat} (h : iOkInv st) : iOkInv (iUnwind st ind) :=
  iUnwindFuel_inv _ _ _ h

theorem parseIndentLine_inv {st st' : IStack} (line : Wstr) (h : iOkInv st)
    (hp : parseIndentLine st line = some st') : iOkInv st' := by
  unfold parseIndentLine at hp
  by_cases h1 : line = []
  · rw [if_pos h1] at hp
    obtain rfl := Option.some.inj hp
    exact h
  · rw [if_neg h1] at hp
    dsimp only at hp
    by_cases h2 : line.length < countIndent line
    · rw [if_pos h2] at hp
      exact absurd hp (by simp)
    · rw [if_neg h2] at hp
      by_cases h3 : trimTrail [' ', '\t', '\r']
          (trimLead [' ', '\t'] (line.drop (countIndent line))) = []
      · rw [if_pos h3] at hp
        obtain rfl := Option.some.inj hp
        exact h
      · rw [if_neg h3] at hp
        obtain rfl := Option.some.inj hp
        split_ifs with hd
        · refine ⟨?_, (iUnwind_inv h).2⟩
          intro e he
          simp only [List.mem_cons] at he
          rcases he with he | he
          · subst he
            rfl
          · exact (iUnwind_inv h).1 e he
        · exact iAttach_inv (iUnwind_inv h) (treeOk_fileLeaf _)

theorem parseIndentLines_inv : ∀ (lines : List Wstr) (st st' : IStack),
    iOkInv st → parseIndentLines lines st = some st' → iOkInv st' := by
  intro lines
  induction lines with
  | nil =>
    intro st st' h hp
    obtain rfl := Option.some.inj hp
    exact h
  | cons l ls ih =>
    intro st st' h hp
    rw [parseIndentLines] at hp
    cases hl : parseIndentLine st l with
    | none => rw [hl] at hp; exact absurd hp (by simp)
    | some st1 =>
      rw [hl] at hp
      exact ih st1 st' (parseIndentLine_inv l h hl) hp

theorem setContentList_isEmpty (target cc : Wstr) (ts : List TreeNode) :
    (setContentList target cc ts).isEmpty = ts.isEmpty := by
  cases ts with
  | nil => rfl
  | cons t ts => rfl

mutual
theorem setContentIn_ok (target cc : Wstr) : ∀ t, treeOk (setContentIn target cc t) = treeOk t
  | .mk nm d c ch => by
    unfold setContentIn
    split_ifs with h
    · rfl
    · rw [treeOk, treeOk, setContentList_ok target cc ch, setContentList_isEmpty]
theorem setContentList_ok (target cc : Wstr) :
    ∀ ts, treeOkList (setContentList target cc ts) = treeOkList ts
  | [] => rfl
  | t :: ts => by
    rw [setContentList, treeOkList, treeOkList, setContentIn_ok target cc t,
      setContentList_ok target cc ts]
end

theorem setContentIn_props (target cc : Wstr) (t : TreeNode) :
    (setContentIn target cc t).name = t.name ∧
    (setContentIn target cc t).isDirectory = t.isDirectory := by
  match t with
  | .mk nm d c ch =>
    unfold setContentIn
    split_ifs with h
    · exact ⟨rfl, rfl⟩
    · exact ⟨rfl, rfl⟩

theorem enhGo_props : ∀ (ls : List Wstr) (t : TreeNode) (a b : Wstr) (f : Bool),
    (treeOk t = true → treeOk (enhGo ls t a b f) = true) ∧
    (enhGo ls t a b f).name = t.name ∧
    (enhGo ls t a b f).isDirectory = t.isDirectory := by
  intro ls
  induction ls with
  | nil => intro t a b f; exact ⟨fun h => h, rfl, rfl⟩
  | cons line ls ih =>
    intro t a b f
    rw [enhGo]
    cases hs : findSubIdx line (str "---START:") with
    | some idx =>
      dsimp only
      cases he : findSubIdxFrom line (str "---") (idx + 9) with
      | some e =>
        dsimp only
        exact ih t _ _ _
      | none =>
        dsimp only
        exact ih t a b f
    | none =>
      dsimp only
      split_ifs with h1 h2 h3
      · obtain ⟨hok, hn, hd⟩ := ih (setContentIn a b t) a b false
        refine ⟨fun ht => hok (by rw [setContentIn_ok]; exact ht), ?_, ?_⟩
        · rw [hn, (setContentIn_props a b t).1]
        · rw [hd, (setContentIn_props a b t).2]
      · exact ih t _ _ _
      · exact ih t _ _ _
      · exact ih t a b f

theorem plInsert_props (comps : List Wstr) (t : TreeNode) (es : Bool) :
    (plInsert t comps es).name = t.name ∧
    (plInsert t comps es).isDirectory = t.isDirectory := by
  match t, comps with
  | .mk nm d c ch, [] =>
    rw [plInsert]
    exact ⟨rfl, rfl⟩
  | .mk nm d c ch, comp :: rest =>
    rw [plInsert]
    cases hf : findChildIdx ch comp with
    | some i =>
      dsimp only
      split_ifs
      all_goals exact ⟨rfl, rfl⟩
    | none =>
      dsimp only
      split_ifs
      all_goals exact ⟨rfl, rfl⟩

/-- Claim C10 counterexample: the PathList parser applied to
`["a.txt", "a.txt/b"]` first creates `a.txt` as a FILE node, then the second
line walks through that very node as if it were a directory and appends the
child `b` to it — a file node with a non-empty child list, violating the
claimed invariant. -/
theorem claim_C10_cex :
    treeOk (ParsePathListFormat [str "a.txt", str "a.txt/b"]) = false ∧
    ((ParsePathListFormat [str "a.txt", str "a.txt/b"]).children.getD 0
        (TreeNode.mk [] true [] [])).isDirectory = false ∧
    ((ParsePathListFormat [str "a.txt", str "a.txt/b"]).children.getD 0
        (TreeNode.mk [] true [] [])).children.length = 1 := by
  refine ⟨?_, ?_, ?_⟩
  · decide
  · decide
  · decide

/-- Claim C10, amended: the tree-glyph, indentation and content-delimited
parsers return trees in which every node with a non-empty child list is a
directory; the PathList parser does not guarantee this (a later path line can
attach children to a previously created file node). All four parsers return a
synthetic directory root named `root` (the indentation-based parsers whenever
they return at all). -/
theorem claim_C10 :
    (∀ lines : List Wstr, treeOk (ParseTreeCommandFormat lines) = true) ∧
    (∀ (lines : List Wstr) (t : TreeNode),
       ParseIndentationFormat lines = some t → treeOk t = true) ∧
    (∀ (lines : List Wstr) (t : TreeNode),
       ParseEnhancedFormat lines = some t → treeOk t = true) ∧
    (∀ lines : List Wstr,
       (ParseTreeCommandFormat lines).name = str "root" ∧
       (ParseTreeCommandFormat lines).isDirectory = true) ∧
    (∀ (lines : List Wstr) (t : TreeNode),
       ParseIndentationFormat lines = some t →
       t.name = str "root" ∧ t.isDirectory = true) ∧
    (∀ (lines : List Wstr) (t : TreeNode),
       ParseEnhancedFormat lines = some t →
       t.name = str "root" ∧ t.isDirectory = true) ∧
    (∀ lines : List Wstr,
       (ParsePathListFormat lines).name = str "root" ∧
       (ParsePathListFormat lines).isDirectory = true) := by
  have h0t : tOkInv (([], []) : TStack) :=
    ⟨fun e he => absurd he (List.not_mem_nil e), rfl⟩
  have h0i : iOkInv (([], []) : IStack) :=
    ⟨fun e he => absurd he (List.not_mem_nil e), rfl⟩
  have htc : ∀ lines : List Wstr, treeOk (ParseTreeCommandFormat lines) = true := by
    intro lines
    unfold ParseTreeCommandFormat
    dsimp only
    exact treeOk_dirOf _ _ (tUnwind_inv (foldl_parseTCLine_inv lines _ h0t)).2
  have hind : ∀ (lines : List Wstr) (t : TreeNode),
      ParseIndentationFormat lines = some t → treeOk t = true := by
    intro lines t hp
    unfold ParseIndentationFormat at hp
    cases hpl : parseIndentLines lines ([], []) with
    | none =>
      rw [hpl] at hp
      exact absurd hp (by simp)
    | some st =>
      rw [hpl] at hp
      dsimp only at hp
      obtain rfl := Option.some.inj hp
      exact treeOk_dirOf _ _ (iUnwind_inv (parseIndentLines_inv lines _ _ h0i hpl)).2
  have hindroot : ∀ (lines : List Wstr) (t : TreeNode),
      ParseIndentationFormat lines = some t →
      t.name = str "root" ∧ t.isDirectory = true := by
    intro lines t hp
    unfold ParseIndentationFormat at hp
    cases hpl : parseIndentLines lines ([], []) with
    | none =>
      rw [hpl] at hp
      exact absurd hp (by simp)
    | some st =>
      rw [hpl] at hp
      dsimp only at hp
      obtain rfl := Option.some.inj hp
      exact ⟨rfl, rfl⟩
  have henh : ∀ (lines : List Wstr) (t : TreeNode),
      ParseEnhancedFormat lines = some t → treeOk t = true := by
    intro lines t hp
    unfold ParseEnhancedFormat at hp
    cases hpi : ParseIndentationFormat lines with
    | none =>
      rw [hpi] at hp
      exact absurd hp (by simp)
    | some root =>
      rw [hpi] at hp
      dsimp only at hp
      obtain rfl := Option.some.inj hp
      exact (enhGo_props lines root [] [] false).1 (hind lines root hpi)
  have henhroot : ∀ (lines : List Wstr) (t : TreeNode),
      ParseEnhancedFormat lines = some t →
      t.name = str "root" ∧ t.isDirectory = true := by
    intro lines t hp
    unfold ParseEnhancedFormat at hp
    cases hpi : ParseIndentationFormat lines with
    | none =>
      rw [hpi] at hp
      exact absurd hp (by simp)
    | some root =>
      rw [hpi] at hp
      dsimp only at hp
      obtain rfl := Option.some.inj hp
      obtain ⟨hn, hd⟩ := hindroot lines root hpi
      refine ⟨?_, ?_⟩
      · rw [(enhGo_props lines root [] [] false).2.1, hn]
      · rw [(enhGo_props lines root [] [] false).2.2, hd]
  have hplLine : ∀ (t : TreeNode) (line : Wstr),
      (plLine t line).name = t.name ∧ (plLine t line).isDirectory = t.isDirectory := by
    intro t line
    unfold plLine
    dsimp only
    split_ifs
    · exact ⟨rfl, rfl⟩
    · exact ⟨rfl, rfl⟩
    · exact plInsert_props _ _ _
  have hplFold : ∀ (lines : List Wstr) (t : TreeNode),
      (lines.foldl plLine t).name = t.name ∧
      (lines.foldl plLine t).isDirectory = t.isDirectory := by
    intro lines
    induction lines with
    | nil => intro t; exact ⟨rfl, rfl⟩
    | cons l ls ih =>
      intro t
      obtain ⟨hn, hd⟩ := ih (plLine t l)
      obtain ⟨hn2, hd2⟩ := hplLine t l
      exact ⟨by rw [List.foldl_cons, hn, hn2], by rw [List.foldl_cons, hd, hd2]⟩
  refine ⟨htc, hind, henh, ?_, hindroot, henhroot, ?_⟩
  · intro lines
    unfold ParseTreeCommandFormat
    exact ⟨rfl, rfl⟩
  · intro lines
    unfold ParsePathListFormat
    obtain ⟨hn, hd⟩ := hplFold lines (TreeNode.mk (str "root") true [] [])
    exact ⟨hn, hd⟩

/-- Claim C10 witness: the indentation-parser invariant applied to a concrete
two-line input. -/
theorem claim_C10_witness :
    treeOk (TreeNode.mk (str "root") true []
      [TreeNode.mk (str "src") true [] [TreeNode.mk (str "a.txt") false [] []]]) = true :=
  claim_C10.2.1 [str "src/", str "  a.txt"]
    (TreeNode.mk (str "root") true []
      [TreeNode.mk (str "src") true [] [TreeNode.mk (str "a.txt") false [] []]])
    (by rfl)
